import Mathlib

/-!
Shallow embedding of the download subsystem of the Tanin repository
(src/app/download.rs): the missing-asset scanner
(check_and_download_missing_files), ad-hoc task admission (start_download),
and the background download worker spawned by spawn_download_task, with its
two acquisition strategies (yt-dlp subprocess, direct HTTP via ureq).

Modelling conventions:
* Rust f32 values are modelled as exact rationals; the claims under study
  only involve values at which binary floating point is exact, or facts
  that do not depend on rounding.
* Filesystem and network effects are modelled by explicit environment
  parameters: an existence predicate for paths, explicit results for the
  fallible calls, and the chunk stream of an HTTP body.
* Rust Path semantics (file_name, file_stem, join) are modelled for Unix
  paths as character-list operations; char::is_alphanumeric is modelled by
  Char.isAlphanum; str::trim by String.trim.
* A Rust panic (the unchecked Vec index in spawn_download_task) is
  modelled as Option.none.
* A channel send is modelled as appending the event to the emitted list;
  the code ignores send failures, which do not affect which events are
  emitted in which order.
-/

namespace Tanin

/-- Splits a character list at every occurrence of the separator, keeping
empty groups. -/
def splitChar (sep : Char) : List Char → List (List Char)
  | [] => [[]]
  | c :: rest =>
    if c = sep then [] :: splitChar sep rest
    else
      match splitChar sep rest with
      | [] => [[c]]
      | g :: gs => (c :: g) :: gs

/-- Does the second list start with the first? -/
def startsWithList : List Char → List Char → Bool
  | [], _ => true
  | _ :: _, [] => false
  | a :: n, b :: h => a = b && startsWithList n h

/-- Substring containment on character lists (models Rust str::contains
for string patterns). -/
def containsSub (hay needle : List Char) : Bool :=
  (List.range (hay.length + 1)).any (fun i => startsWithList needle (hay.drop i))

/-- Numeric value of a digit string, most significant digit first. -/
def digitsVal (ds : List Char) : ℕ :=
  ds.foldl (fun a c => a * 10 + (c.toNat - 48)) 0

/-- The normal components of a Unix path: split on slashes, dropping empty
and current-directory segments; models the component normalization Rust
performs before Path::file_name. -/
def pathSegs (p : String) : List (List Char) :=
  (splitChar '/' p.toList).filter (fun g => decide (g ≠ [] ∧ g ≠ ['.']))

/-- Rust Path::file_name: the final normal component, none when the path
ends in a parent-directory component, is a root, or is empty. -/
def rustFileName (p : String) : Option (List Char) :=
  match (pathSegs p).getLast? with
  | none => none
  | some g => if g = ['.', '.'] then none else some g

/-- Rust's file-stem rule on a file name: the portion before the last dot,
or the whole name when there is no dot or when that portion is empty. -/
def stemRule (n : List Char) : List Char :=
  if '.' ∈ n then
    let ext := n.reverse.takeWhile (fun c => !(c == '.'))
    let pre := n.take (n.length - ext.length - 1)
    if pre = [] then n else pre
  else n

/-- Rust Path::file_stem. -/
def rustFileStem (p : String) : Option (List Char) :=
  (rustFileName p).map stemRule

/-- Task status from src/app/download.rs lines 6-11; the f32 progress is
modelled as a rational. -/
inductive DownloadStatus
  | Pending
  | Downloading (progress : ℚ)
  | Done
  | Error (msg : String)
  deriving DecidableEq

/-- Download task, lines 13-20. -/
structure DownloadTask where
  name : String
  category : String
  icon : String
  url : String
  status : DownloadStatus
  target_filename : Option String
  deriving DecidableEq

/-- The fields of a catalog sound record that the scanner reads. -/
structure Sound where
  name : String
  category : String
  icon : String
  file_path : String
  url : Option String
  deriving DecidableEq

/-- Worker-to-controller event, lines 22-26. -/
inductive DownloadEvent
  | Progress (pct : ℚ)
  | Success (name category file_path icon url : String)
  | Error (msg : String)
  deriving DecidableEq

/-- One iteration of the scan loop of check_and_download_missing_files
(lines 34-55), over one sound record; ex is the filesystem existence
predicate. -/
def scanStep (ex : String → Bool) (q : List DownloadTask) (sound : Sound) :
    List DownloadTask :=
  match sound.url with
  | some url =>
    if ex sound.file_path = false ∧ url.trim ≠ "" then
      q ++ [{ name := sound.name, category := sound.category,
              icon := sound.icon, url := url, status := .Pending,
              target_filename := some ((rustFileName sound.file_path).getD []).asString }]
    else q
  | none => q

/-- check_and_download_missing_files (lines 29-56): an immediate return
without yt-dlp, otherwise a scan over every sound record. -/
def check_and_download_missing_files (yt_dlp_available : Bool)
    (ex : String → Bool) (sounds : List Sound) (q : List DownloadTask) :
    List DownloadTask :=
  if yt_dlp_available = false then q else sounds.foldl (scanStep ex) q

/-- The admission-relevant fields of the App state. -/
structure AdmissionState where
  add_sound_name : String
  add_sound_category : String
  add_sound_icon : String
  add_sound_url : String
  add_sound_status : String
  download_queue : List DownloadTask
  deriving DecidableEq

/-- start_download (lines 58-81). -/
def start_download (a : AdmissionState) : AdmissionState :=
  if a.add_sound_name.trim = "" ∨ a.add_sound_category.trim = "" ∨
      a.add_sound_url.trim = "" then
    { a with add_sound_status := "Error: All fields (except icon) are required." }
  else
    { a with
      download_queue := a.download_queue ++
        [{ name := a.add_sound_name, category := a.add_sound_category,
           icon := a.add_sound_icon, url := a.add_sound_url.trim,
           status := .Pending, target_filename := none }],
      add_sound_status := "Added to download queue.",
      add_sound_name := "", add_sound_url := "" }

/-- The queue and active-index update at the head of spawn_download_task
(lines 83-90): the Rust Vec index panics when out of bounds, modelled as
none; in bounds, the task's status becomes Downloading(0.0) and the index
is recorded as active. -/
def spawn_download_update (q : List DownloadTask) (index : ℕ) :
    Option (List DownloadTask × ℕ) :=
  if h : index < q.length then
    some (q.set index { q[index] with status := .Downloading 0 }, index)
  else none

/-- Name sanitization for tasks without a target filename (lines 128-132):
trim, then replace every non-alphanumeric character with an underscore. -/
def sanitizeName (name : String) : String :=
  (name.trim.toList.map (fun c => if c.isAlphanum then c else '_')).asString

/-- The stem X of the output template X.%(ext)s (lines 121-134). -/
def outputName (target_filename : Option String) (name : String) : String :=
  match target_filename with
  | some tf => ((rustFileStem tf).map List.asString).getD "unknown"
  | none => sanitizeName name

/-- safe_name (lines 136-141): the file stem of the full output-template
path sounds_dir/X.%(ext)s, recomputed for use in output-file discovery;
the code unwraps the stem, which the development proves is always present
on the inputs the worker produces. -/
def discoveryStem (sounds_dir x : String) : String :=
  ((rustFileStem (sounds_dir ++ "/" ++ (x ++ ".%(ext)s"))).map List.asString).getD ""

/-- The decimal significand grammar of Rust float parsing: digits with an
optional fractional part, or a fractional part alone. -/
def parseMantissa (cs : List Char) : Option ℚ :=
  let ip := cs.takeWhile Char.isDigit
  let rest := cs.dropWhile Char.isDigit
  match rest with
  | [] => if ip = [] then none else some (digitsVal ip)
  | '.' :: fp =>
    if fp.all Char.isDigit = true ∧ (ip ≠ [] ∨ fp ≠ []) then
      some ((digitsVal ip : ℚ) + (digitsVal fp : ℚ) / 10 ^ fp.length)
    else none
  | _ => none

/-- The exponent part of Rust float parsing: an optional sign and a
non-empty digit string. -/
def parseExp (cs : List Char) : Option ℤ :=
  match cs with
  | '+' :: r => if r ≠ [] ∧ r.all Char.isDigit = true then some (digitsVal r) else none
  | '-' :: r => if r ≠ [] ∧ r.all Char.isDigit = true then some (-(digitsVal r : ℤ)) else none
  | r => if r ≠ [] ∧ r.all Char.isDigit = true then some (digitsVal r) else none

/-- Rust str::parse::<f32> restricted to finite decimal inputs, with the
exact rational value (rounding to f32 precision and the inf/nan spellings
are not modelled; no claim under study depends on them). -/
def parseF32 (cs : List Char) : Option ℚ :=
  let signBody : ℚ × List Char :=
    match cs with
    | '+' :: r => (1, r)
    | '-' :: r => (-1, r)
    | r => (1, r)
  let mant := signBody.2.takeWhile (fun c => !(c == 'e' || c == 'E'))
  let expPart := signBody.2.dropWhile (fun c => !(c == 'e' || c == 'E'))
  match parseMantissa mant with
  | none => none
  | some m =>
    match expPart with
    | [] => some (signBody.1 * m)
    | _ :: ex =>
      match parseExp ex with
      | none => none
      | some k => some (signBody.1 * m * (10 : ℚ) ^ k)

/-- The rfind-based token extraction of the line parser (lines 266-267):
the characters after the last space, none when there is no space. -/
def afterLastSpace (sl : List Char) : Option (List Char) :=
  match sl.reverse.findIdx? (fun c => c == ' ') with
  | none => none
  | some k => some (sl.drop (sl.length - k))

/-- The stdout progress-line parser of the yt-dlp strategy (lines 261-273):
on a line containing both the download marker and a percent sign, the
token between the last space and the first percent sign is parsed as a
percentage; everything else yields no event. -/
def parseLine (line : String) : Option ℚ :=
  let cs := line.toList
  if containsSub cs ("[download]").toList = true ∧ cs.contains '%' = true then
    match cs.findIdx? (fun c => c == '%') with
    | none => none
    | some pct_idx =>
      match afterLastSpace (cs.take pct_idx) with
      | none => none
      | some tok => parseF32 tok
  else none

/-- The candidate extension list of output-file discovery (line 279). -/
def fallbacks : List String := ["opus", "m4a", "mp3", "wav", "ogg"]

/-- The discovery loop after a successful yt-dlp exit (lines 280-287):
the first existing sounds_dir/safe_name.ext over the candidate list. -/
def findDownloaded (ex : String → Bool) (sounds_dir safe_name : String) :
    List String → Option String
  | [] => none
  | e :: rest =>
    let p := sounds_dir ++ "/" ++ (safe_name ++ "." ++ e)
    if ex p = true then some p else findDownloaded ex sounds_dir safe_name rest

/-- One read step of the ureq chunk loop: a read of n bytes whose write
may fail, or a read error; a read of zero bytes ends the loop, matching
the list running out or an explicit zero chunk. -/
inductive ChunkStep
  | chunk (n : ℕ) (writeErr : Option String)
  | readErr (e : String)
  deriving DecidableEq

/-- An HTTP response: the optional Content-Length header value and the
stream of body read steps. -/
structure HttpResp where
  contentLength : Option String
  steps : List ChunkStep
  deriving DecidableEq

/-- Rust str::parse::<usize>: an optional leading plus sign, then a
non-empty digit string, within the 64-bit range. -/
def parseUsize (s : String) : Option ℕ :=
  let ds := match s.toList with
    | '+' :: r => r
    | r => r
  if ds ≠ [] ∧ ds.all Char.isDigit = true then
    if digitsVal ds < 2 ^ 64 then some (digitsVal ds) else none
  else none

/-- The chunk loop of the direct-HTTP strategy (lines 170-200); the Bool
is true when the loop ran to completion, after which Success is sent. -/
def chunkEvents (total_size downloaded : ℕ) :
    List ChunkStep → List DownloadEvent × Bool
  | [] => ([], true)
  | .chunk n werr :: rest =>
    if n = 0 then ([], true)
    else
      match werr with
      | some e => ([.Error ("Failed to write to file: " ++ e)], false)
      | none =>
        let r := chunkEvents total_size (downloaded + n) rest
        ((if 0 < total_size then
            [DownloadEvent.Progress (((downloaded + n : ℕ) : ℚ) / (total_size : ℚ) * 100)]
          else []) ++ r.1, r.2)
  | .readErr e :: _ => ([.Error ("Download failed: " ++ e)], false)

/-- The direct-HTTP strategy (lines 147-218): the ureq call, the optional
Content-Length total, file creation, the chunk loop, and the terminal
event. -/
def httpStrategy (httpResult : Except String HttpResp)
    (createFileErr : Option String)
    (name category icon url final_path : String) : List DownloadEvent :=
  match httpResult with
  | .error e => [.Error ("Direct download failed: " ++ e)]
  | .ok resp =>
    let total_size := (resp.contentLength.bind parseUsize).getD 0
    match createFileErr with
    | some e => [.Error ("Failed to create file: " ++ e)]
    | none =>
      let r := chunkEvents total_size 0 resp.steps
      r.1 ++ (if r.2 = true then
        [DownloadEvent.Success name category final_path icon url] else [])

/-- The environment of one worker invocation: the results of every
fallible effect the worker body performs, in program order. -/
structure WorkerEnv where
  projDirsOk : Bool
  soundsDir : String
  soundsDirExists : Bool
  createDirErr : Option String
  httpResult : Except String HttpResp
  createFileErr : Option String
  spawnErr : Option String
  stdoutLines : List String
  waitResult : Except String Bool
  fileExists : String → Bool

/-- The directory-creation outcome (lines 111-119): an error is possible
only when the sounds directory does not already exist. -/
def workerDirErr (env : WorkerEnv) : Option String :=
  if env.soundsDirExists = false then env.createDirErr else none

/-- The event stream of the worker thread body of spawn_download_task
(lines 99-319), over an explicit environment for its effects; events are
listed in emission order. -/
def spawnWorkerEvents (env : WorkerEnv) (name category icon url : String)
    (target_filename : Option String) (yt_dlp_available : Bool) :
    List DownloadEvent :=
  if env.projDirsOk = false then
    [.Error ("Could not determine data directory.")]
  else
    match workerDirErr env with
    | some e => [.Error ("Error creating directory: " ++ e)]
    | none =>
      if yt_dlp_available = false then
        match target_filename with
        | some target_file =>
          httpStrategy env.httpResult env.createFileErr name category icon url
            (env.soundsDir ++ "/" ++ target_file)
        | none =>
          [.Error ("yt-dlp is missing and no filename provided for direct download.")]
      else
        match env.spawnErr with
        | some e => [.Error ("Failed to start yt-dlp: " ++ e)]
        | none =>
          (env.stdoutLines.filterMap (fun l => (parseLine l).map DownloadEvent.Progress)) ++
          (match env.waitResult with
           | .error e => [.Error ("Failed to wait on child: " ++ e)]
           | .ok true =>
             (match findDownloaded env.fileExists env.soundsDir
                 (discoveryStem env.soundsDir (outputName target_filename name))
                 fallbacks with
              | some final_path => [.Success name category final_path icon url]
              | none => [.Error ("Download success but file not found.")])
           | .ok false => [])

/-- Is the event terminal (Success or Error)? -/
def isTerminal : DownloadEvent → Bool
  | .Progress _ => false
  | _ => true

/-- The number of terminal events in a stream. -/
def terminalCount (evs : List DownloadEvent) : ℕ :=
  (evs.filter isTerminal).length

/-- The sanitization exactly as claim C3 words it: every non-alphanumeric
character of the given text replaced by an underscore, with no trimming;
to be compared with the sanitization the code performs. -/
def specSanitize (s : String) : String :=
  (s.toList.map (fun c => if c.isAlphanum then c else '_')).asString

/-- Running totals of a chunk list starting from an initial count: the
byte counts after each chunk is written. -/
def runningTotals (d : ℕ) : List ℕ → List ℕ
  | [] => []
  | n :: rest => (d + n) :: runningTotals (d + n) rest

/-- A worker environment reaching the silent path: yt-dlp spawns, exits
with a failure status, and the worker ends without any event. -/
def gapEnv : WorkerEnv :=
  { projDirsOk := true, soundsDir := "sd", soundsDirExists := true,
    createDirErr := none, httpResult := .error "unused",
    createFileErr := none, spawnErr := none, stdoutLines := [],
    waitResult := .ok false, fileExists := fun _ => false }

/-- A concrete Pending task used to exercise the queue operations. -/
def taskW : DownloadTask :=
  { name := "n", category := "c", icon := "i", url := "u",
    status := .Pending, target_filename := none }

/-- A worker environment in which yt-dlp runs, exits successfully, and
only sd/foo.mp3 exists on disk. -/
def envSuccess : WorkerEnv :=
  { projDirsOk := true, soundsDir := "sd", soundsDirExists := true,
    createDirErr := none, httpResult := .error "unused",
    createFileErr := none, spawnErr := none, stdoutLines := [],
    waitResult := .ok true, fileExists := fun p => p == "sd/foo.mp3" }

set_option maxRecDepth 16000

/-- C8: whenever the trimmed name, category, or URL of the admission input
is empty, start_download sets the descriptive error status and leaves the
queue and every input field unchanged: no task is enqueued. -/
theorem c8_admission_reject (a : AdmissionState)
    (h : a.add_sound_name.trim = "" ∨ a.add_sound_category.trim = "" ∨
      a.add_sound_url.trim = "") :
    (start_download a).download_queue = a.download_queue ∧
    (start_download a).add_sound_status =
      "Error: All fields (except icon) are required." ∧
    (start_download a).add_sound_name = a.add_sound_name ∧
    (start_download a).add_sound_category = a.add_sound_category ∧
    (start_download a).add_sound_icon = a.add_sound_icon ∧
    (start_download a).add_sound_url = a.add_sound_url := by
  unfold start_download
  rw [if_pos h]
  exact ⟨rfl, rfl, rfl, rfl, rfl, rfl⟩

/-- Witness for C8: the admission input (name "a", category "b",
url "  ") — a URL that is whitespace only — is rejected with the error
status and an unchanged empty queue. -/
theorem c8_admission_reject_witness :
    (start_download (⟨"a", "b", "", "  ", "", []⟩ : AdmissionState)).download_queue = [] ∧
    (start_download (⟨"a", "b", "", "  ", "", []⟩ : AdmissionState)).add_sound_status =
      "Error: All fields (except icon) are required." := by
  have h := c8_admission_reject (⟨"a", "b", "", "  ", "", []⟩ : AdmissionState)
    (Or.inr (Or.inr (by with_unfolding_all decide)))
  exact ⟨h.1, h.2.1⟩

/-- C4 counterexample: the claim says a successful admission clears the
input fields, but after admitting (name "a", category "b", icon "",
url "y") the category input field still holds "b": only the name and URL
fields are cleared by the code (lines 79-80 clear exactly those two). -/
theorem c4_category_not_cleared :
    (start_download (⟨"a", "b", "", "y", "", []⟩ : AdmissionState)).add_sound_category
      = "b" ∧ ("b" : String) ≠ "" := by
  with_unfolding_all decide

/-- C4 (amended): for every admission input with non-empty trimmed name,
category, and URL, start_download appends exactly one task with status
Pending and no target filename, sets the success status, and clears the
name and URL input fields, leaving the category and icon fields
unchanged; the enqueued task carries the untrimmed name and the trimmed
URL. -/
theorem c4_admission_success (a : AdmissionState)
    (h1 : a.add_sound_name.trim ≠ "") (h2 : a.add_sound_category.trim ≠ "")
    (h3 : a.add_sound_url.trim ≠ "") :
    (start_download a).download_queue = a.download_queue ++
      [{ name := a.add_sound_name, category := a.add_sound_category,
         icon := a.add_sound_icon, url := a.add_sound_url.trim,
         status := .Pending, target_filename := none }] ∧
    (start_download a).add_sound_status = "Added to download queue." ∧
    (start_download a).add_sound_name = "" ∧
    (start_download a).add_sound_url = "" ∧
    (start_download a).add_sound_category = a.add_sound_category ∧
    (start_download a).add_sound_icon = a.add_sound_icon := by
  unfold start_download
  rw [if_neg (by push_neg; exact ⟨h1, h2, h3⟩)]
  exact ⟨rfl, rfl, rfl, rfl, rfl, rfl⟩

/-- Witness for C4 (amended): admitting (name "a", category "b", icon "",
url " y ") enqueues one Pending task with no target filename and the
trimmed URL, and clears name and URL while keeping the category. -/
theorem c4_admission_success_witness :
    (start_download (⟨"a", "b", "", " y ", "", []⟩ : AdmissionState)).download_queue =
      [{ name := "a", category := "b", icon := "", url := "y",
         status := .Pending, target_filename := none }] ∧
    (start_download (⟨"a", "b", "", " y ", "", []⟩ : AdmissionState)).add_sound_name = "" := by
  have h := c4_admission_success (⟨"a", "b", "", " y ", "", []⟩ : AdmissionState)
    (by with_unfolding_all decide) (by with_unfolding_all decide)
    (by with_unfolding_all decide)
  refine ⟨?_, h.2.2.1⟩
  rw [h.1]
  with_unfolding_all decide

/-- C9: spawn_download_task indexes the download queue without a bounds
check; for every index below the queue length the indexed task's status
becomes Downloading(0.0), the index is recorded as active, and every
other task is untouched, while for every index at or beyond the length
the operation is undefined (the Rust indexing panics, modelled none). -/
theorem c9_unchecked_indexing (q : List DownloadTask) (i : ℕ) :
    (i < q.length →
      ∃ t0 q2, q[i]? = some t0 ∧
        spawn_download_update q i = some (q2, i) ∧
        q2.length = q.length ∧
        q2[i]? = some { t0 with status := .Downloading 0 } ∧
        ∀ j, j ≠ i → q2[j]? = q[j]?) ∧
    (q.length ≤ i → spawn_download_update q i = none) := by
  constructor
  · intro h
    refine ⟨q[i], q.set i { q[i] with status := .Downloading 0 },
      List.getElem?_eq_getElem h, ?_, List.length_set q i _, ?_, ?_⟩
    · unfold spawn_download_update
      rw [dif_pos h]
    · rw [List.getElem?_set_self h]
    · intro j hj
      exact List.getElem?_set_ne (fun e => hj e.symm)
  · intro h
    unfold spawn_download_update
    rw [dif_neg (by omega)]

/-- Witness for C9: on a one-task queue, index 0 yields the task set to
Downloading(0.0) with active index 0, and index 1 is out of bounds. -/
theorem c9_unchecked_indexing_witness :
    spawn_download_update [taskW] 1 = none ∧
    (∃ t0 q2, ([taskW] : List DownloadTask)[0]? = some t0 ∧
      spawn_download_update [taskW] 0 = some (q2, 0) ∧
      q2.length = 1 ∧
      q2[0]? = some { t0 with status := .Downloading 0 } ∧
      ∀ j, j ≠ 0 → q2[j]? = ([taskW] : List DownloadTask)[j]?) := by
  constructor
  · exact (c9_unchecked_indexing [taskW] 1).2 (by decide)
  · have h := (c9_unchecked_indexing [taskW] 0).1 (by decide)
    simpa using h

/-- Every task in a scanned queue either was already there or has a
present target filename. -/
theorem scanStep_mem (ex : String → Bool) (q : List DownloadTask) (s : Sound) :
    ∀ t ∈ scanStep ex q s, t ∈ q ∨ ∃ str, t.target_filename = some str := by
  intro t ht
  cases hu : s.url with
  | none => simp only [scanStep, hu] at ht; exact Or.inl ht
  | some u =>
    simp only [scanStep, hu] at ht
    by_cases hc : ex s.file_path = false ∧ u.trim ≠ ""
    · rw [if_pos hc] at ht
      rcases List.mem_append.1 ht with h | h
      · exact Or.inl h
      · rcases List.mem_singleton.1 h with rfl
        exact Or.inr ⟨_, rfl⟩
    · rw [if_neg hc] at ht; exact Or.inl ht

/-- Folding the scanner over any sound list preserves the property that
new tasks carry a present target filename. -/
theorem scanFold_mem (ex : String → Bool) :
    ∀ (sounds : List Sound) (q : List DownloadTask),
      ∀ t ∈ sounds.foldl (scanStep ex) q,
        t ∈ q ∨ ∃ str, t.target_filename = some str := by
  intro sounds
  induction sounds with
  | nil => intro q t ht; exact Or.inl ht
  | cons s rest ih =>
    intro q t ht
    rcases ih (scanStep ex q s) t ht with h | h
    · exact scanStep_mem ex q s t h
    · exact Or.inr h

/-- C2: per catalog record, the scanner appends exactly one Pending task
precisely when the record's target path does not exist and its URL is
present and non-empty after trimming; the task copies name, category,
icon, and URL, and its target filename is the basename of the record's
file path; an existing path, a missing or blank URL, or a false yt-dlp
flag leaves the queue unchanged. -/
theorem c2_scanner_enqueue (ex : String → Bool) (q : List DownloadTask) (s : Sound) :
    (∀ u, s.url = some u → ex s.file_path = false → u.trim ≠ "" →
      ∃ t, scanStep ex q s = q ++ [t] ∧ t.name = s.name ∧
        t.category = s.category ∧ t.icon = s.icon ∧ t.url = u ∧
        t.status = .Pending ∧
        ∀ b, rustFileName s.file_path = some b → t.target_filename = some b.asString) ∧
    (ex s.file_path = true → scanStep ex q s = q) ∧
    (∀ u, s.url = some u → u.trim = "" → scanStep ex q s = q) ∧
    (s.url = none → scanStep ex q s = q) ∧
    (∀ (sounds : List Sound) (q0 : List DownloadTask),
      check_and_download_missing_files false ex sounds q0 = q0) := by
  refine ⟨?_, ?_, ?_, ?_, ?_⟩
  · intro u hu hex htr
    refine ⟨{ name := s.name, category := s.category, icon := s.icon,
              url := u, status := .Pending,
              target_filename := some ((rustFileName s.file_path).getD []).asString },
      ?_, rfl, rfl, rfl, rfl, rfl, ?_⟩
    · simp only [scanStep, hu]
      rw [if_pos ⟨hex, htr⟩]
    · intro b hb
      rw [hb]
      rfl
  · intro hex
    cases hu : s.url with
    | none => simp only [scanStep, hu]
    | some u =>
      simp only [scanStep, hu]
      rw [if_neg (by simp [hex])]
  · intro u hu htr
    simp only [scanStep, hu]
    rw [if_neg (by simp [htr])]
  · intro hu
    simp only [scanStep, hu]
  · intro sounds q0
    unfold check_and_download_missing_files
    rw [if_pos rfl]

/-- Witness for C2: a record with a missing target path "dir/snd.opus"
and URL "u" yields exactly one Pending task copying the record's fields,
with target filename "snd.opus". -/
theorem c2_scanner_enqueue_witness :
    ∃ t, scanStep (fun _ => false) []
        (⟨"n", "c", "i", "dir/snd.opus", some "u"⟩ : Sound) = [] ++ [t] ∧
      t.name = "n" ∧ t.category = "c" ∧ t.icon = "i" ∧ t.url = "u" ∧
      t.status = .Pending ∧
      ∀ b, rustFileName "dir/snd.opus" = some b → t.target_filename = some b.asString := by
  exact (c2_scanner_enqueue (fun _ => false) []
    (⟨"n", "c", "i", "dir/snd.opus", some "u"⟩ : Sound)).1 "u" rfl rfl
    (by with_unfolding_all decide)

/-- C10: every task created by check_and_download_missing_files has a
present target filename (never none), and when the record's file path has
no final component the filename is Some of the empty string, so scanner
tasks never reach the sanitization branch reserved for absent
filenames. -/
theorem c10_scanner_filename_present :
    (∀ (ytdlp : Bool) (ex : String → Bool) (sounds : List Sound)
        (q : List DownloadTask),
      ∀ t ∈ check_and_download_missing_files ytdlp ex sounds q,
        t ∈ q ∨ ∃ str, t.target_filename = some str) ∧
    (∀ (ex : String → Bool) (q : List DownloadTask) (s : Sound) u,
      s.url = some u → ex s.file_path = false → u.trim ≠ "" →
      rustFileName s.file_path = none →
      scanStep ex q s = q ++
        [{ name := s.name, category := s.category, icon := s.icon,
           url := u, status := .Pending, target_filename := some "" }]) := by
  constructor
  · intro ytdlp ex sounds q t ht
    unfold check_and_download_missing_files at ht
    by_cases hy : ytdlp = false
    · rw [if_pos hy] at ht; exact Or.inl ht
    · rw [if_neg hy] at ht
      exact scanFold_mem ex sounds q t ht
  · intro ex q s u hu hex htr hfn
    simp only [scanStep, hu]
    rw [if_pos ⟨hex, htr⟩, hfn]
    rfl

/-- Witness for C10: a record whose file path "a/.." has no final
component and whose target does not exist yields a task whose target
filename is Some of the empty string. -/
theorem c10_scanner_filename_present_witness :
    scanStep (fun _ => false) [] (⟨"n", "c", "i", "a/..", some "u"⟩ : Sound) =
      [] ++ [{ name := "n", category := "c", icon := "i", url := "u",
               status := .Pending, target_filename := some "" }] := by
  exact (c10_scanner_filename_present).2 (fun _ => false) []
    (⟨"n", "c", "i", "a/..", some "u"⟩ : Sound) "u" rfl rfl
    (by with_unfolding_all decide) (by decide)

/-- The discovery loop equals a first-match search over the extension
list. -/
theorem findDownloaded_eq_find? (ex : String → Bool) (d stem : String) :
    ∀ L : List String, findDownloaded ex d stem L =
      (L.find? (fun e => ex (d ++ "/" ++ (stem ++ "." ++ e)))).map
        (fun e => d ++ "/" ++ (stem ++ "." ++ e)) := by
  intro L
  induction L with
  | nil => rfl
  | cons e rest ih =>
    simp only [findDownloaded, List.find?]
    by_cases h : ex (d ++ "/" ++ (stem ++ "." ++ e)) = true
    · rw [if_pos h, h]
      rfl
    · rw [if_neg h, Bool.of_not_eq_true h]
      exact ih

/-- C6: output-file discovery checks opus, m4a, mp3, wav, ogg in this
fixed order and resolves to the first existing stem.ext candidate; a
later-ordered extension is still found when earlier ones are absent; with
no existing candidate it yields none, and after a successful exit the
worker accordingly emits Success with the resolved path or the
file-not-found Error. -/
theorem c6_discovery_order (ex : String → Bool) (d stem : String) :
    (findDownloaded ex d stem fallbacks =
      (fallbacks.find? (fun e => ex (d ++ "/" ++ (stem ++ "." ++ e)))).map
        (fun e => d ++ "/" ++ (stem ++ "." ++ e))) ∧
    (findDownloaded ex d stem fallbacks = none ↔
      ∀ e ∈ fallbacks, ¬ ex (d ++ "/" ++ (stem ++ "." ++ e)) = true) ∧
    (∀ (env : WorkerEnv) (n c i u : String) (tf : Option String),
      env.projDirsOk = true → env.soundsDirExists = true →
      env.spawnErr = none → env.stdoutLines = [] →
      env.waitResult = Except.ok true → env.soundsDir = d →
      env.fileExists = ex →
      spawnWorkerEvents env n c i u tf true =
        match findDownloaded ex d (discoveryStem d (outputName tf n)) fallbacks with
        | some final_path => [.Success n c final_path i u]
        | none => [.Error ("Download success but file not found.")]) := by
  refine ⟨findDownloaded_eq_find? ex d stem fallbacks, ?_, ?_⟩
  · rw [findDownloaded_eq_find? ex d stem fallbacks]
    simp [List.find?_eq_none]
  · intro env n c i u tf h1 h2 h3 h4 h5 h6 h7
    simp only [spawnWorkerEvents, h1, h2, h3, h4, h5, h6, h7, workerDirErr,
      Bool.true_eq_false, if_false, reduceIte, List.filterMap_nil,
      List.nil_append]

/-- Witness for C6: with stem "foo" and only sd/foo.mp3 on disk, the
earlier candidates foo.opus and foo.m4a are passed over and discovery
resolves to sd/foo.mp3; the worker emits Success with that path after a
successful exit (the task's target filename "foo.wav" has stem "foo"). -/
theorem c6_discovery_order_witness :
    spawnWorkerEvents envSuccess "n" "c" "i" "u" (some "foo.wav") true =
      [.Success "n" "c" "sd/foo.mp3" "i" "u"] ∧
    findDownloaded (fun p => p == "sd/foo.mp3") "sd" "foo" fallbacks =
      some "sd/foo.mp3" := by
  have h := (c6_discovery_order (fun p => p == "sd/foo.mp3") "sd" "foo").2.2
    envSuccess "n" "c" "i" "u" (some "foo.wav") rfl rfl rfl rfl rfl rfl rfl
  constructor
  · rw [h]
    with_unfolding_all decide
  · with_unfolding_all decide

/-- With a known positive total and error-free chunks, the chunk loop
runs to completion and emits one Progress event of accumulated/total*100
per chunk. -/
theorem chunkEvents_all_ok (T : ℕ) (hT : 0 < T) :
    ∀ (chunks : List ℕ) (d : ℕ), (∀ n ∈ chunks, 0 < n) →
      chunkEvents T d (chunks.map (fun n => ChunkStep.chunk n none)) =
        ((runningTotals d chunks).map
          (fun s => DownloadEvent.Progress ((s : ℚ) / (T : ℚ) * 100)), true) := by
  intro chunks
  induction chunks with
  | nil => intro d _; rfl
  | cons n rest ih =>
    intro d hpos
    have hn : 0 < n := hpos n (List.mem_cons_self n rest)
    simp only [List.map_cons, chunkEvents]
    rw [if_neg (by omega : ¬ n = 0), if_pos hT,
      ih (d + n) (fun m hm => hpos m (List.mem_cons_of_mem n hm))]
    simp [runningTotals]

/-- With a zero total the chunk loop emits no Progress events: it yields
either no event and completion, or a single Error event. -/
theorem chunkEvents_total_zero :
    ∀ (steps : List ChunkStep) (d : ℕ),
      chunkEvents 0 d steps = ([], true) ∨
      ∃ m, chunkEvents 0 d steps = ([DownloadEvent.Error m], false) := by
  intro steps
  induction steps with
  | nil => intro d; exact Or.inl rfl
  | cons st rest ih =>
    intro d
    cases st with
    | chunk n werr =>
      by_cases hn : n = 0
      · left
        simp [chunkEvents, hn]
      · cases werr with
        | some e =>
          right
          exact ⟨"Failed to write to file: " ++ e, by simp [chunkEvents, hn]⟩
        | none =>
          rcases ih (d + n) with h | ⟨m, h⟩
          · left
            simp [chunkEvents, hn, h]
          · right
            exact ⟨m, by simp [chunkEvents, hn, h]⟩
    | readErr e =>
      right
      exact ⟨_, rfl⟩

/-- C7: in the direct-HTTP strategy, a present Content-Length parsing to
T > 0 makes the worker emit, after each successfully written chunk, a
Progress event equal to the accumulated byte count divided by T times
100, ending in Success; an absent or unparsable Content-Length yields no
Progress events, only the single terminal event. -/
theorem c7_http_progress :
    (∀ (resp : HttpResp) (chunks : List ℕ) (T : ℕ)
        (name category icon url p hv : String),
      resp.contentLength = some hv → parseUsize hv = some T → 0 < T →
      resp.steps = chunks.map (fun n => ChunkStep.chunk n none) →
      (∀ n ∈ chunks, 0 < n) →
      httpStrategy (.ok resp) none name category icon url p =
        ((runningTotals 0 chunks).map
          (fun s => DownloadEvent.Progress ((s : ℚ) / (T : ℚ) * 100))) ++
        [DownloadEvent.Success name category p icon url]) ∧
    (∀ (resp : HttpResp) (cfe : Option String) (name category icon url p : String),
      resp.contentLength.bind parseUsize = none →
      ∃ ev, httpStrategy (.ok resp) cfe name category icon url p = [ev] ∧
        isTerminal ev = true ∧
        ∀ pct, DownloadEvent.Progress pct ∉
          httpStrategy (.ok resp) cfe name category icon url p) := by
  constructor
  · intro resp chunks T name category icon url p hv hcl hparse hT hsteps hpos
    simp only [httpStrategy, hcl, Option.some_bind, hparse, Option.getD_some, hsteps]
    rw [chunkEvents_all_ok T hT chunks 0 hpos]
    simp
  · intro resp cfe name category icon url p hcl
    simp only [httpStrategy, hcl, Option.getD_none]
    cases cfe with
    | some e =>
      exact ⟨_, rfl, rfl, by simp⟩
    | none =>
      rcases chunkEvents_total_zero resp.steps 0 with h | ⟨m, h⟩
      · refine ⟨DownloadEvent.Success name category p icon url, ?_, rfl, ?_⟩
        · simp [h]
        · simp [h]
      · refine ⟨DownloadEvent.Error m, ?_, rfl, ?_⟩
        · simp [h]
        · simp [h]

/-- Witness for C7: a Content-Length of 1000 with four error-free chunks
of 250 bytes yields exactly the Progress events 25, 50, 75, 100 followed
by Success, and an absent Content-Length yields a single terminal
event. -/
theorem c7_http_progress_witness :
    httpStrategy (.ok ⟨some "1000",
        [ChunkStep.chunk 250 none, ChunkStep.chunk 250 none,
         ChunkStep.chunk 250 none, ChunkStep.chunk 250 none]⟩)
      none "n" "c" "i" "u" "sd/f.mp3" =
      [DownloadEvent.Progress 25, DownloadEvent.Progress 50,
       DownloadEvent.Progress 75, DownloadEvent.Progress 100,
       DownloadEvent.Success "n" "c" "sd/f.mp3" "i" "u"] ∧
    (∃ ev, httpStrategy (.ok ⟨none, [ChunkStep.chunk 250 none]⟩)
        none "n" "c" "i" "u" "sd/f.mp3" = [ev] ∧ isTerminal ev = true ∧
      ∀ pct, DownloadEvent.Progress pct ∉
        httpStrategy (.ok ⟨none, [ChunkStep.chunk 250 none]⟩)
          none "n" "c" "i" "u" "sd/f.mp3") := by
  constructor
  · have h := c7_http_progress.1 (⟨some "1000",
        [ChunkStep.chunk 250 none, ChunkStep.chunk 250 none,
         ChunkStep.chunk 250 none, ChunkStep.chunk 250 none]⟩ : HttpResp)
      [250, 250, 250, 250] 1000 "n" "c" "i" "u" "sd/f.mp3" "1000"
      rfl (by with_unfolding_all decide) (by decide) rfl (by decide)
    rw [h]
    with_unfolding_all decide
  · exact c7_http_progress.2 (⟨none, [ChunkStep.chunk 250 none]⟩ : HttpResp)
      none "n" "c" "i" "u" "sd/f.mp3" rfl

/-- A successful index search splits the list at the first match: the
prefix before the found index is the longest prefix of non-matching
elements, the index is within bounds, and a matching element exists. -/
theorem findIdx?_take_eq_takeWhile (p : α → Bool) :
    ∀ (l : List α) (i : ℕ), l.findIdx? p = some i →
      l.take i = l.takeWhile (fun a => !(p a)) ∧ i ≤ l.length ∧
        ∃ x ∈ l, p x = true := by
  intro l
  induction l with
  | nil => intro i h; simp at h
  | cons a l ih =>
    intro i h
    rw [List.findIdx?_cons] at h
    by_cases hp : p a = true
    · rw [if_pos hp] at h
      rcases Option.some.inj h with rfl
      refine ⟨?_, Nat.zero_le _, a, List.mem_cons_self a l, hp⟩
      rw [List.take_zero, List.takeWhile_cons, if_neg (by simp [hp])]
    · rw [if_neg hp, List.findIdx?_succ] at h
      rcases Option.map_eq_some'.1 h with ⟨j, hj, rfl⟩
      rcases ih j hj with ⟨h1, h2, x, hx, hpx⟩
      refine ⟨?_, by simpa using h2, x, List.mem_cons_of_mem a hx, hpx⟩
      rw [List.take_succ_cons, List.takeWhile_cons,
        if_pos (by simp [Bool.of_not_eq_true hp]), h1]

/-- Dropping all but the last k elements is reversing the first k
elements of the reverse. -/
theorem drop_sub_eq_reverse_take (l : List α) (k : ℕ) (hk : k ≤ l.length) :
    l.drop (l.length - k) = (l.reverse.take k).reverse := by
  have h1 : l.reverse = (l.drop (l.length - k)).reverse ++
      (l.take (l.length - k)).reverse := by
    rw [← List.reverse_append, List.take_append_drop]
  have hlen : (l.drop (l.length - k)).reverse.length = k := by
    simp only [List.length_reverse, List.length_drop]
    omega
  rw [h1, List.take_left' hlen, List.reverse_reverse]

/-- The rfind-based extraction yields the maximal run of non-space
characters at the end of the slice, and nothing when the slice holds no
space. -/
theorem afterLastSpace_eq (sl : List Char) :
    afterLastSpace sl =
      if ' ' ∈ sl then
        some ((sl.reverse.takeWhile (fun c => !(c == ' '))).reverse)
      else none := by
  cases hf : sl.reverse.findIdx? (fun c => c == ' ') with
  | none =>
    simp only [afterLastSpace, hf]
    rw [if_neg]
    intro hmem
    have := List.findIdx?_eq_none_iff.1 hf ' ' (List.mem_reverse.2 hmem)
    simp at this
  | some k =>
    simp only [afterLastSpace, hf]
    rcases findIdx?_take_eq_takeWhile (fun c => c == ' ') sl.reverse k hf with
      ⟨h1, h2, x, hx, hpx⟩
    have hxs : x = ' ' := by simpa using hpx
    rw [if_pos (by rw [← hxs]; exact List.mem_reverse.1 hx)]
    rw [drop_sub_eq_reverse_take sl k (by simpa using h2), h1]

/-- C5 counterexample: on the line with a tab between the marker and the
percentage, the whitespace-delimited token before the percent sign is
"45.2", which parses; the claim therefore requires a Progress event, but
the code searches only for an ASCII space (rfind of a space character,
line 266) and emits nothing. -/
theorem c5_tab_counterexample :
    parseLine ("[download]\t45.2% of 3.00MiB") = none ∧
    Char.isWhitespace '\t' = true ∧
    parseF32 ("45.2").toList = some (226 / 5) ∧
    containsSub ("[download]\t45.2% of 3.00MiB").toList ("[download]").toList = true := by
  exact ⟨by decide, by decide, by with_unfolding_all decide, by decide⟩

/-- C5 (amended): for every line containing the substring marking a
download record and a percent sign, the parser takes the maximal run of
non-space characters between the last ASCII space and the first percent
sign and emits its parse as a Progress percentage, or nothing when no
space precedes the percent sign or the token does not parse; lines
lacking either substring yield no event; 45.2 and 100 are extracted from
the two specification examples. -/
theorem c5_progress_line_rule (l : String) :
    (parseLine ("[download]  45.2% of 3.00MiB") = some (226 / 5) ∧
     parseLine ("[download] 100% of 1.0MiB") = some 100) ∧
    (l.toList.contains '%' = false → parseLine l = none) ∧
    (containsSub l.toList ("[download]").toList = false → parseLine l = none) ∧
    (∀ i, containsSub l.toList ("[download]").toList = true →
      l.toList.findIdx? (fun c => c == '%') = some i →
      parseLine l =
        (if ' ' ∈ l.toList.take i then
          parseF32 ((l.toList.take i).reverse.takeWhile (fun c => !(c == ' '))).reverse
        else none) ∧
      l.toList.take i = l.toList.takeWhile (fun c => !(c == '%'))) := by
  refine ⟨⟨by with_unfolding_all decide, by with_unfolding_all decide⟩, ?_, ?_, ?_⟩
  · intro h
    simp only [parseLine, h]
    simp
  · intro h
    simp only [parseLine, h]
    simp
  · intro i hdl hidx
    have hpct : l.toList.contains '%' = true := by
      rcases (findIdx?_take_eq_takeWhile (fun c => c == '%') l.toList i hidx).2.2 with
        ⟨x, hx, hpx⟩
      have hxs : x = '%' := by simpa using hpx
      subst hxs
      simpa [List.contains] using List.elem_eq_true_of_mem hx
    constructor
    · simp only [parseLine, hdl, hpct, and_self, if_true, hidx,
        afterLastSpace_eq]
      by_cases hsp : ' ' ∈ l.toList.take i
      · rw [if_pos hsp, if_pos hsp]
      · rw [if_neg hsp, if_neg hsp]
    · exact (findIdx?_take_eq_takeWhile (fun c => c == '%') l.toList i hidx).1

/-- Witness for C5 (amended): on the first specification example the
first percent sign is at index 16, the prefix before it is the maximal
percent-free prefix, and the parse equals the space-delimited token
rule. -/
theorem c5_progress_line_rule_witness :
    parseLine ("[download]  45.2% of 3.00MiB") =
      (if ' ' ∈ ("[download]  45.2% of 3.00MiB").toList.take 16 then
        parseF32 ((("[download]  45.2% of 3.00MiB").toList.take 16).reverse.takeWhile
          (fun c => !(c == ' '))).reverse
      else none) ∧
    ("[download]  45.2% of 3.00MiB").toList.take 16 =
      ("[download]  45.2% of 3.00MiB").toList.takeWhile (fun c => !(c == '%')) := by
  exact (c5_progress_line_rule ("[download]  45.2% of 3.00MiB")).2.2.2 16
    (by decide) (by decide)

/-- The character list of the output-template suffix ".%(ext)s". -/
def extTemplate : List Char := ['.', '%', '(', 'e', 'x', 't', ')', 's']

/-- Splitting never yields an empty group list. -/
theorem splitChar_ne_nil (sep : Char) : ∀ l : List Char, splitChar sep l ≠ [] := by
  intro l
  cases l with
  | nil => simp [splitChar]
  | cons c rest =>
    simp only [splitChar]
    by_cases h : c = sep
    · rw [if_pos h]
      simp
    · rw [if_neg h]
      cases splitChar sep rest <;> simp

/-- A list without the separator splits into itself alone. -/
theorem splitChar_of_not_mem (sep : Char) :
    ∀ l : List Char, sep ∉ l → splitChar sep l = [l] := by
  intro l
  induction l with
  | nil => intro _; rfl
  | cons c rest ih =>
    intro h
    have hc : ¬ c = sep := fun e => h (e ▸ List.mem_cons_self c rest)
    simp only [splitChar, if_neg hc, ih (fun hm => h (List.mem_cons_of_mem c hm))]

/-- No group produced by splitting contains the separator. -/
theorem splitChar_no_sep (sep : Char) :
    ∀ l : List Char, ∀ g ∈ splitChar sep l, sep ∉ g := by
  intro l
  induction l with
  | nil =>
    intro g hg
    rcases List.mem_singleton.1 hg with rfl
    simp
  | cons c rest ih =>
    intro g hg
    simp only [splitChar] at hg
    by_cases hc : c = sep
    · rw [if_pos hc] at hg
      rcases List.mem_cons.1 hg with rfl | h
      · simp
      · exact ih g h
    · rw [if_neg hc] at hg
      cases hr : splitChar sep rest with
      | nil => exact absurd hr (splitChar_ne_nil sep rest)
      | cons g0 gs =>
        rw [hr] at hg
        rcases List.mem_cons.1 hg with rfl | h
        · intro hmem
          rcases List.mem_cons.1 hmem with rfl | h0
          · exact hc rfl
          · exact ih g0 (hr ▸ List.mem_cons_self g0 gs) h0
        · exact ih g (hr ▸ List.mem_cons_of_mem g0 h)

/-- The number of groups is the separator count plus one. -/
theorem splitChar_length (sep : Char) :
    ∀ l : List Char, (splitChar sep l).length = l.count sep + 1 := by
  intro l
  induction l with
  | nil => simp [splitChar]
  | cons c rest ih =>
    simp only [splitChar]
    by_cases hc : c = sep
    · rw [if_pos hc, hc]
      simp [List.count_cons, ih]
    · rw [if_neg hc]
      cases hr : splitChar sep rest with
      | nil => exact absurd hr (splitChar_ne_nil sep rest)
      | cons g0 gs =>
        rw [hr] at ih
        simp only [List.length_cons] at ih ⊢
        have hcc : (c == sep) = false := by
          rw [beq_eq_false_iff_ne]
          exact hc
        rw [List.count_cons, hcc]
        simp only [if_false, Bool.false_eq_true]
        omega

/-- Prepending to a list with at least two elements keeps the last. -/
theorem getLast?_cons_ne (a : α) (L : List α) (h : L ≠ []) :
    (a :: L).getLast? = L.getLast? := by
  cases L with
  | nil => exact absurd rfl h
  | cons b L => simp

/-- The last group of a split around a separator-free tail is that
tail. -/
theorem getLast?_splitChar_append (sep : Char) (l2 : List Char) (h : sep ∉ l2) :
    ∀ l1 : List Char, (splitChar sep (l1 ++ sep :: l2)).getLast? = some l2 := by
  intro l1
  induction l1 with
  | nil =>
    simp only [List.nil_append, splitChar, if_pos rfl,
      splitChar_of_not_mem sep l2 h]
    rfl
  | cons c l1 ih =>
    simp only [List.cons_append, splitChar]
    by_cases hc : c = sep
    · rw [if_pos hc]
      rw [getLast?_cons_ne [] _ (splitChar_ne_nil sep _)]
      exact ih
    · rw [if_neg hc]
      cases hr : splitChar sep (l1 ++ sep :: l2) with
      | nil => exact absurd hr (splitChar_ne_nil sep _)
      | cons g0 gs =>
        have hlen : (splitChar sep (l1 ++ sep :: l2)).length =
            (l1 ++ sep :: l2).count sep + 1 := splitChar_length sep _
        have hcount : 0 < (l1 ++ sep :: l2).count sep := by
          have : sep ∈ l1 ++ sep :: l2 :=
            List.mem_append_right l1 (List.mem_cons_self sep l2)
          exact List.count_pos_iff.2 this
        have hgs : gs ≠ [] := by
          intro he
          rw [hr, he] at hlen
          simp only [List.length_cons, List.length_nil] at hlen
          omega
        rw [hr] at ih
        rw [getLast?_cons_ne g0 gs hgs] at ih
        rw [getLast?_cons_ne _ gs hgs]
        exact ih

/-- Filtering preserves the last element when it satisfies the
predicate. -/
theorem getLast?_filter (p : α → Bool) :
    ∀ (L : List α) (g : α), L.getLast? = some g → p g = true →
      (L.filter p).getLast? = some g := by
  intro L
  induction L with
  | nil => intro g hg _; simp at hg
  | cons a L ih =>
    intro g hg hp
    cases L with
    | nil =>
      simp only [List.getLast?_singleton, Option.some.injEq] at hg
      subst hg
      simp [List.filter, hp]
    | cons b L' =>
      rw [List.getLast?_cons_cons] at hg
      have hrec := ih g hg hp
      have hne : (b :: L').filter p ≠ [] := by
        intro he
        rw [he] at hrec
        simp at hrec
      rw [List.filter_cons]
      by_cases hpa : p a = true
      · rw [if_pos hpa, getLast?_cons_ne a _ hne]
        exact hrec
      · rw [if_neg hpa]
        exact hrec

/-- file_name of a path obtained by joining a directory with a normal,
slash-free file name is that file name. -/
theorem rustFileName_join (d fn : String) (h1 : '/' ∉ fn.toList)
    (h2 : fn.toList ≠ []) (h3 : fn.toList ≠ ['.'])
    (h4 : fn.toList ≠ ['.', '.']) :
    rustFileName (d ++ "/" ++ fn) = some fn.toList := by
  have htl : (d ++ "/" ++ fn).toList = d.toList ++ '/' :: fn.toList := by
    simp [String.toList, String.data_append]
  have hlast : (pathSegs (d ++ "/" ++ fn)).getLast? = some fn.toList := by
    unfold pathSegs
    rw [htl]
    refine getLast?_filter _ _ _ (getLast?_splitChar_append '/' fn.toList h1 d.toList) ?_
    exact decide_eq_true ⟨h2, h3⟩
  simp only [rustFileName, hlast]
  rw [if_neg h4]

/-- The template suffix wins the extension race: the reversed template
has exactly seven characters before its dot. -/
theorem takeWhile_template_reverse (r : List Char) :
    (['s', ')', 't', 'x', 'e', '(', '%', '.'] ++ r).takeWhile
      (fun c => !(c == '.')) = ['s', ')', 't', 'x', 'e', '(', '%'] := by
  rfl

/-- The stem of a nonempty name with the template suffix appended is the
name itself. -/
theorem stemRule_append_template (x : List Char) (hx : x ≠ []) :
    stemRule (x ++ extTemplate) = x := by
  have hdot : '.' ∈ x ++ extTemplate :=
    List.mem_append_right x (by decide)
  have hrev : (x ++ extTemplate).reverse =
      ['s', ')', 't', 'x', 'e', '(', '%', '.'] ++ x.reverse := by
    rw [List.reverse_append]
    rfl
  simp only [stemRule, if_pos hdot, hrev, takeWhile_template_reverse]
  have hlen : (x ++ extTemplate).length - 7 - 1 = x.length := by
    simp [extTemplate]
  rw [show (['s', ')', 't', 'x', 'e', '(', '%'] : List Char).length = 7 from rfl,
    hlen, List.take_left' rfl, if_neg hx]

/-- For a nonempty slash-free stem, recomputing the stem of the full
output template (lines 136-141) gives the stem back. -/
theorem discoveryStem_of_no_slash (d x : String) (hx : x ≠ "")
    (hs : '/' ∉ x.toList) :
    discoveryStem d x = x := by
  have hxl : x.toList ≠ [] := by
    intro he
    exact hx (by rw [← String.asString_toList x, he, String.asString_nil])
  have htl : (x ++ ".%(ext)s").toList = x.toList ++ extTemplate := by
    simp [String.toList, String.data_append]
    rfl
  have h8 : ∀ l : List Char, (l ++ extTemplate).length = l.length + 8 := by
    intro l
    simp [extTemplate]
  have hfn : rustFileName (d ++ "/" ++ (x ++ ".%(ext)s")) =
      some (x.toList ++ extTemplate) := by
    rw [show rustFileName (d ++ "/" ++ (x ++ ".%(ext)s")) =
        some (x ++ ".%(ext)s").toList from ?_, htl]
    · apply rustFileName_join
      · rw [htl]
        intro hm
        rcases List.mem_append.1 hm with h | h
        · exact hs h
        · simp [extTemplate] at h
      · rw [htl]
        intro he
        have hl := congrArg List.length he
        rw [h8] at hl
        simp at hl
      · rw [htl]
        intro he
        have hl := congrArg List.length he
        rw [h8] at hl
        simp at hl
      · rw [htl]
        intro he
        have hl := congrArg List.length he
        rw [h8] at hl
        simp at hl
  unfold discoveryStem rustFileStem
  rw [hfn]
  show (stemRule (x.toList ++ extTemplate)).asString = x
  rw [stemRule_append_template x.toList hxl, String.asString_toList]

/-- Every character of a stem is a character of the original name. -/
theorem stemRule_subset (n : List Char) : ∀ c ∈ stemRule n, c ∈ n := by
  intro c hc
  simp only [stemRule] at hc
  split_ifs at hc
  · exact hc
  · exact List.mem_of_mem_take hc
  · exact hc

/-- A file name extracted from a path never contains a slash. -/
theorem rustFileName_no_slash (p : String) :
    ∀ g, rustFileName p = some g → '/' ∉ g := by
  intro g hg
  cases hll : (pathSegs p).getLast? with
  | none =>
    simp only [rustFileName, hll] at hg
    simp at hg
  | some g0 =>
    simp only [rustFileName, hll] at hg
    split_ifs at hg
    rcases Option.some.inj hg with rfl
    have hmem : g0 ∈ pathSegs p := List.mem_of_getLast?_eq_some hll
    have hmem2 : g0 ∈ splitChar '/' p.toList := List.mem_of_mem_filter hmem
    exact splitChar_no_sep '/' p.toList g0 hmem2

/-- The output name computed by the worker never contains a slash. -/
theorem outputName_no_slash (tf : Option String) (name : String) :
    '/' ∉ (outputName tf name).toList := by
  cases tf with
  | none =>
    simp only [outputName, sanitizeName, List.toList_asString]
    intro hm
    rcases List.mem_map.1 hm with ⟨c, _, hc⟩
    by_cases ha : c.isAlphanum = true
    · rw [if_pos ha] at hc
      subst hc
      simp at ha
    · rw [if_neg ha] at hc
      cases hc
  | some t =>
    cases hs : rustFileStem t with
    | none =>
      simp only [outputName, hs, Option.map_none', Option.getD_none]
      decide
    | some s =>
      simp only [outputName, hs, Option.map_some', Option.getD_some,
        List.toList_asString]
      intro hm
      rcases hs2 : rustFileName t with _ | g
      · unfold rustFileStem at hs
        rw [hs2] at hs
        simp at hs
      · unfold rustFileStem at hs
        rw [hs2] at hs
        simp only [Option.map_some', Option.some.injEq] at hs
        subst hs
        exact rustFileName_no_slash t g hs2 (stemRule_subset g '/' hm)

/-- C3 counterexample: for the ad-hoc task name " a " (no target
filename), the claim's output name — every non-alphanumeric character of
the name replaced by an underscore — is "_a_", but the code trims the
name first (line 129) and produces "a". -/
theorem c3_untrimmed_counterexample :
    outputName none (" a ") = "a" ∧ specSanitize (" a ") = "_a_" ∧
    ("a" : String) ≠ "_a_" := by
  exact ⟨by with_unfolding_all decide, by with_unfolding_all decide, by decide⟩

/-- C3 (amended): for a task without a target filename the output name is
the trimmed task name with every non-alphanumeric character replaced by
an underscore; for a task whose target filename has a stem the output
name is that stem; and whenever the output name is non-empty, the stem
recomputed from the full output template for file discovery coincides
with it. -/
theorem c3_output_name (tf : Option String) (name : String) :
    (outputName none name = specSanitize name.trim) ∧
    (∀ t s, tf = some t → rustFileStem t = some s →
      outputName tf name = s.asString) ∧
    (outputName tf name ≠ "" →
      ∀ d, discoveryStem d (outputName tf name) = outputName tf name) := by
  refine ⟨rfl, ?_, ?_⟩
  · intro t s ht hs
    subst ht
    simp only [outputName, hs, Option.map_some', Option.getD_some]
  · intro hne d
    exact discoveryStem_of_no_slash d (outputName tf name) hne
      (outputName_no_slash tf name)

/-- Witness for C3 (amended): the name " x y " sanitizes to its trimmed
form "x_y"; the target filename "snd.opus" has output name "snd"; and
the discovery stem recomputed from the template equals the output
name. -/
theorem c3_output_name_witness :
    outputName none (" x y ") = specSanitize ((" x y ").trim) ∧
    outputName (some ("snd.opus")) ("ignored") = "snd" ∧
    discoveryStem ("sd") (outputName (some ("snd.opus")) ("ignored")) =
      outputName (some ("snd.opus")) ("ignored") := by
  have h := c3_output_name (some ("snd.opus")) ("ignored")
  refine ⟨(c3_output_name none (" x y ")).1, ?_, ?_⟩
  · have h2 := h.2.1 ("snd.opus") (("snd").toList) rfl
      (by with_unfolding_all decide)
    rw [h2, String.asString_toList]
  · exact h.2.2 (by with_unfolding_all decide) ("sd")

/-- The chunk loop emits a run of Progress events, followed by one Error
event exactly when it did not run to completion. -/
theorem chunkEvents_shape :
    ∀ (steps : List ChunkStep) (T d : ℕ),
      ∃ ps : List ℚ,
        ((chunkEvents T d steps).2 = true ∧
          (chunkEvents T d steps).1 = ps.map DownloadEvent.Progress) ∨
        ((chunkEvents T d steps).2 = false ∧
          ∃ m, (chunkEvents T d steps).1 =
            ps.map DownloadEvent.Progress ++ [DownloadEvent.Error m]) := by
  intro steps
  induction steps with
  | nil => intro T d; exact ⟨[], Or.inl ⟨rfl, rfl⟩⟩
  | cons st rest ih =>
    intro T d
    cases st with
    | chunk n werr =>
      by_cases hn : n = 0
      · refine ⟨[], Or.inl ?_⟩
        simp [chunkEvents, hn]
      · cases werr with
        | some e =>
          refine ⟨[], Or.inr ?_⟩
          simp [chunkEvents, hn]
        | none =>
          rcases ih T (d + n) with ⟨ps, hcase⟩
          by_cases hT : 0 < T
          · refine ⟨((d + n : ℕ) : ℚ) / (T : ℚ) * 100 :: ps, ?_⟩
            rcases hcase with ⟨hdone, hev⟩ | ⟨hdone, m, hev⟩
            · exact Or.inl ⟨by simp [chunkEvents, hn, hdone],
                by simp [chunkEvents, hn, hT, hev]⟩
            · exact Or.inr ⟨by simp [chunkEvents, hn, hdone],
                m, by simp [chunkEvents, hn, hT, hev]⟩
          · refine ⟨ps, ?_⟩
            rcases hcase with ⟨hdone, hev⟩ | ⟨hdone, m, hev⟩
            · exact Or.inl ⟨by simp [chunkEvents, hn, hdone],
                by simp [chunkEvents, hn, hT, hev]⟩
            · exact Or.inr ⟨by simp [chunkEvents, hn, hdone],
                m, by simp [chunkEvents, hn, hT, hev]⟩
    | readErr e =>
      refine ⟨[], Or.inr ?_⟩
      simp [chunkEvents]

/-- The direct-HTTP strategy always emits a run of Progress events
followed by exactly one terminal event. -/
theorem httpStrategy_shape (hr : Except String HttpResp)
    (cfe : Option String) (n c i u p : String) :
    ∃ (ps : List ℚ) (ev : DownloadEvent),
      httpStrategy hr cfe n c i u p = ps.map DownloadEvent.Progress ++ [ev] ∧
      isTerminal ev = true := by
  cases hr with
  | error e =>
    exact ⟨[], .Error ("Direct download failed: " ++ e), rfl, rfl⟩
  | ok resp =>
    cases cfe with
    | some e =>
      exact ⟨[], .Error ("Failed to create file: " ++ e), rfl, rfl⟩
    | none =>
      rcases chunkEvents_shape resp.steps
        ((resp.contentLength.bind parseUsize).getD 0) 0 with ⟨ps, hcase⟩
      rcases hcase with ⟨hdone, hev⟩ | ⟨hdone, m, hev⟩
      · refine ⟨ps, .Success n c p i u, ?_, rfl⟩
        simp [httpStrategy, hdone, hev]
      · refine ⟨ps, .Error m, ?_, rfl⟩
        simp [httpStrategy, hdone, hev]

/-- Progress events do not count as terminal. -/
theorem terminalCount_progress_append (ps : List ℚ)
    (rest : List DownloadEvent) :
    terminalCount (ps.map DownloadEvent.Progress ++ rest) =
      terminalCount rest := by
  induction ps with
  | nil => rfl
  | cons q ps ih => simp [terminalCount, isTerminal, List.filter_cons, ih]

/-- C1 counterexample: in the environment where the data directory and
sounds directory resolve, yt-dlp spawns, prints nothing, and exits with a
FAILURE status, the worker ends having emitted no event at all — zero
terminal events rather than the exactly one the claim requires. The
success test at line 277 has no else branch, so a failed exit slips
through lines 275-310 silently. -/
theorem c1_silent_failed_exit :
    spawnWorkerEvents gapEnv ("n") ("c") ("i") ("u") none true = [] ∧
    terminalCount (spawnWorkerEvents gapEnv ("n") ("c") ("i") ("u") none true) = 0 :=
  ⟨rfl, rfl⟩

/-- C1 (amended): every invocation of the worker emits zero or more
Progress events followed by at most one terminal event, and it ends with
zero terminal events exactly on the one silent path: project directories
resolve, the sounds directory is usable, yt-dlp is available and spawns,
and the wait returns a failure exit status; on every other path exactly
one terminal event is emitted. -/
theorem c1_worker_terminal_events (env : WorkerEnv) (n c i u : String)
    (tf : Option String) (y : Bool) :
    (∃ (ps : List ℚ) (rest : List DownloadEvent),
      spawnWorkerEvents env n c i u tf y =
        ps.map DownloadEvent.Progress ++ rest ∧ rest.length ≤ 1 ∧
        ∀ e ∈ rest, isTerminal e = true) ∧
    (terminalCount (spawnWorkerEvents env n c i u tf y) = 0 ↔
      env.projDirsOk = true ∧ workerDirErr env = none ∧ y = true ∧
      env.spawnErr = none ∧ env.waitResult = Except.ok false) := by
  cases hpd : env.projDirsOk with
  | false =>
    have hev : spawnWorkerEvents env n c i u tf y =
        [.Error ("Could not determine data directory.")] := by
      simp [spawnWorkerEvents, hpd]
    rw [hev]
    refine ⟨⟨[], [.Error ("Could not determine data directory.")],
      by simp, by simp, by simp [isTerminal]⟩, ?_⟩
    simp [terminalCount, isTerminal, hpd]
  | true =>
    cases hdir : workerDirErr env with
    | some e =>
      have hev : spawnWorkerEvents env n c i u tf y =
          [.Error ("Error creating directory: " ++ e)] := by
        simp [spawnWorkerEvents, hpd, hdir]
      rw [hev]
      refine ⟨⟨[], [.Error ("Error creating directory: " ++ e)],
        by simp, by simp, by simp [isTerminal]⟩, ?_⟩
      simp [terminalCount, isTerminal, hdir]
    | none =>
      cases y with
      | false =>
        cases tf with
        | none =>
          have hev : spawnWorkerEvents env n c i u none false =
              [.Error ("yt-dlp is missing and no filename provided for direct download.")] := by
            simp [spawnWorkerEvents, hpd, hdir]
          rw [hev]
          refine ⟨⟨[],
            [.Error ("yt-dlp is missing and no filename provided for direct download.")],
            by simp, by simp, by simp [isTerminal]⟩, ?_⟩
          simp [terminalCount, isTerminal]
        | some target_file =>
          have hev : spawnWorkerEvents env n c i u (some target_file) false =
              httpStrategy env.httpResult env.createFileErr n c i u
                (env.soundsDir ++ "/" ++ target_file) := by
            simp [spawnWorkerEvents, hpd, hdir]
          rcases httpStrategy_shape env.httpResult env.createFileErr n c i u
            (env.soundsDir ++ "/" ++ target_file) with ⟨ps, ev, heq, hterm⟩
          rw [hev, heq]
          refine ⟨⟨ps, [ev], rfl, by simp, by simp [hterm]⟩, ?_⟩
          rw [terminalCount_progress_append]
          simp [terminalCount, List.filter_cons, hterm]
      | true =>
        cases hsp : env.spawnErr with
        | some e =>
          have hev : spawnWorkerEvents env n c i u tf true =
              [.Error ("Failed to start yt-dlp: " ++ e)] := by
            simp [spawnWorkerEvents, hpd, hdir, hsp]
          rw [hev]
          refine ⟨⟨[], [.Error ("Failed to start yt-dlp: " ++ e)],
            by simp, by simp, by simp [isTerminal]⟩, ?_⟩
          simp [terminalCount, isTerminal, hsp]
        | none =>
          have hP : env.stdoutLines.filterMap
              (fun l => (parseLine l).map DownloadEvent.Progress) =
              (env.stdoutLines.filterMap parseLine).map DownloadEvent.Progress :=
            (List.map_filterMap parseLine DownloadEvent.Progress
              env.stdoutLines).symm
          cases hw : env.waitResult with
          | error e =>
            have hev : spawnWorkerEvents env n c i u tf true =
                (env.stdoutLines.filterMap parseLine).map DownloadEvent.Progress ++
                  [.Error ("Failed to wait on child: " ++ e)] := by
              simp only [spawnWorkerEvents, hpd, hdir, hsp, hw]
              rw [← hP]
              simp
            rw [hev]
            refine ⟨⟨env.stdoutLines.filterMap parseLine,
              [.Error ("Failed to wait on child: " ++ e)],
              rfl, by simp, by simp [isTerminal]⟩, ?_⟩
            rw [terminalCount_progress_append]
            simp [terminalCount, isTerminal, List.filter_cons, hw]
          | ok b =>
            cases b with
            | true =>
              cases hfd : findDownloaded env.fileExists env.soundsDir
                  (discoveryStem env.soundsDir (outputName tf n)) fallbacks with
              | some final_path =>
                have hev : spawnWorkerEvents env n c i u tf true =
                    (env.stdoutLines.filterMap parseLine).map DownloadEvent.Progress ++
                      [.Success n c final_path i u] := by
                  simp only [spawnWorkerEvents, hpd, hdir, hsp, hw, hfd]
                  rw [← hP]
                  simp
                rw [hev]
                refine ⟨⟨env.stdoutLines.filterMap parseLine,
                  [.Success n c final_path i u],
                  rfl, by simp, by simp [isTerminal]⟩, ?_⟩
                rw [terminalCount_progress_append]
                simp [terminalCount, isTerminal, List.filter_cons, hw]
              | none =>
                have hev : spawnWorkerEvents env n c i u tf true =
                    (env.stdoutLines.filterMap parseLine).map DownloadEvent.Progress ++
                      [.Error ("Download success but file not found.")] := by
                  simp only [spawnWorkerEvents, hpd, hdir, hsp, hw, hfd]
                  rw [← hP]
                  simp
                rw [hev]
                refine ⟨⟨env.stdoutLines.filterMap parseLine,
                  [.Error ("Download success but file not found.")],
                  rfl, by simp, by simp [isTerminal]⟩, ?_⟩
                rw [terminalCount_progress_append]
                simp [terminalCount, isTerminal, List.filter_cons, hw]
            | false =>
              have hev : spawnWorkerEvents env n c i u tf true =
                  (env.stdoutLines.filterMap parseLine).map DownloadEvent.Progress ++
                    [] := by
                simp only [spawnWorkerEvents, hpd, hdir, hsp, hw]
                rw [← hP]
                simp
              rw [hev]
              refine ⟨⟨env.stdoutLines.filterMap parseLine, [],
                rfl, by simp, by simp⟩, ?_⟩
              rw [terminalCount_progress_append]
              simp [terminalCount, hpd, hdir, hsp, hw]

end Tanin
